import Mathlib

/-!
Verification development for the training-loop component of the
`Pytorch1.0Tutorial.ipynb` notebook.

The notebook trains two toy classifiers (cell-30: a linear model, cell-32: a
small MLP) with the loop pattern

  for epoch in range(N):
      optimizer.zero_grad()
      yhat = model(x)
      loss = cross_entropy(yhat, y)
      loss.backward()
      optimizer.step()
      if epoch and not epoch % logEvery: print(epoch, loss.item())

followed by an error-rate report that reuses the loop-internal `yhat` for the
training split and a fresh forward pass for the test split.

The embedding below models a Parameter as a flat list of values plus a
gradient accumulator of the same shape, and the loop as explicit state
passing over a list of Parameters.  The numeric/autodiff engine (forward
pass, loss value, gradient computation) is an external collaborator in the
notebook (PyTorch), so it is passed to the loop as an explicit record of
functions; the loop's own orchestration — reset, forward, loss, accumulate,
update, log — is translated from cell-30.  Machine floats are modelled by an
arbitrary linear ordered field (instantiated at `ℚ` for concrete
evaluations and at `ℝ` where logarithms are needed).
-/

namespace TorchTut

variable {F : Type} [LinearOrderedField F]

/-- A learnable parameter: a mutable value (flattened to a list) together
with its gradient accumulator of identical shape (`torch.nn.Parameter` with
its `.grad` buffer, cell-30). -/
structure Param (F : Type) where
  value : List F
  grad : List F
deriving DecidableEq

/-- The values of a list of parameters (what `optimizer.step` updates). -/
def pvals (ps : List (Param F)) : List (List F) := ps.map Param.value

/-- Modelled from the spec: `optimizer.zero_grad()` — reset every
Parameter's gradient accumulator to zero in place, keeping its shape
(cell-30 `optimizer.zero_grad()`, cell-25 `W.grad.zero_()`). -/
def zeroGrads (ps : List (Param F)) : List (Param F) :=
  ps.map (fun p => { p with grad := List.replicate p.grad.length 0 })

/-- Modelled from the spec: `loss.backward()` accumulates — adds — each
gradient contribution into the Parameter's gradient buffer (cell-22:
"Careful, this is additive!"). -/
def accumGrads (ps : List (Param F)) (gs : List (List F)) : List (Param F) :=
  List.zipWith (fun p g => { p with grad := List.zipWith (· + ·) p.grad g }) ps gs

/-- Modelled from the spec: plain gradient descent, `torch.optim.SGD`
(cell-30, `lr=0.01`): each parameter value becomes `value - lr * grad`,
elementwise; the gradient buffer is left untouched. -/
def sgdStep (lr : F) (ps : List (Param F)) : List (Param F) :=
  ps.map (fun p =>
    { p with value := List.zipWith (fun v g => v - lr * g) p.value p.grad })

/-- Index of the first maximal entry of a row (`torch.argmax`), accumulator
style: `i` is the index of the head of the remaining list, `bi`/`bv` the
best index and value so far. -/
def argmaxGo : ℕ → ℕ → F → List F → ℕ
  | _, bi, _, [] => bi
  | i, bi, bv, v :: rest =>
    if bv < v then argmaxGo (i + 1) i v rest else argmaxGo (i + 1) bi bv rest

/-- Arg-max class index of one prediction row (`yhat.argmax(1)` per row,
cell-30). -/
def argmaxIdx (row : List F) : ℕ :=
  match row with
  | [] => 0
  | v :: rest => argmaxGo 1 0 v rest

/-- Error rate as computed in cell-30:
`(yhat.argmax(1) != y).float().mean()` — the mean of the 0/1 mismatch
indicators between per-row arg-max predictions and labels. -/
def errorRate (pred : List (List F)) (labels : List ℕ) : F :=
  let m := List.zipWith (fun row l => if argmaxIdx row != l then (1 : F) else 0)
    pred labels
  m.sum / (m.length : F)

/-- The spec's evaluation routine: compute `prediction = model.forward(features)`
and return the mismatch fraction against the labels (cell-30). -/
def classificationErrorRate (forward : List (List F) → List (List F))
    (features : List (List F)) (labels : List ℕ) : F :=
  errorRate (forward features) labels

/-- The logging guard of cell-30: `if epoch and not epoch % 100` with the
interval made a parameter. -/
def shouldLog (logEvery epoch : ℕ) : Bool :=
  epoch != 0 && epoch % logEvery == 0

/-- The external numeric/autodiff engine as seen by one training run: a
forward pass, a loss value and reverse-mode gradients, each as a function of
the current parameter values (features and labels are fixed for the run, as
in cell-30). -/
structure Engine (F : Type) where
  forward : List (List F) → List (List F)
  lossFn : List (List F) → F
  gradFn : List (List F) → List (List F)

/-- The mutable state the loop threads along: the parameters, the last
prediction `yhat` and the last loss (both unset before the first
iteration). -/
structure LoopState (F : Type) where
  params : List (Param F)
  yhat : List (List F)
  loss : Option F
deriving DecidableEq

/-- One iteration of the cell-30 loop body: zero the gradients, forward,
loss, backward (accumulate), optimizer step; also the log record the
iteration emits, if any. -/
def iterStep (eng : Engine F) (lr : F) (logEvery epoch : ℕ) (s : LoopState F) :
    LoopState F × Option (ℕ × F) :=
  let ps1 := zeroGrads s.params
  let yhat := eng.forward (pvals ps1)
  let L := eng.lossFn yhat
  let ps2 := accumGrads ps1 (eng.gradFn (pvals ps1))
  let ps3 := sgdStep lr ps2
  (⟨ps3, yhat, some L⟩, if shouldLog logEvery epoch then some (epoch, L) else none)

/-- Run `n` iterations starting at iteration index `epoch`, collecting the
emitted log records in order. -/
def runFrom (eng : Engine F) (lr : F) (logEvery : ℕ) :
    ℕ → ℕ → LoopState F → LoopState F × List (ℕ × F)
  | _, 0, s => (s, [])
  | epoch, n + 1, s =>
    let r1 := iterStep eng lr logEvery epoch s
    let r2 := runFrom eng lr logEvery (epoch + 1) n r1.1
    (r2.1, r1.2.toList ++ r2.2)

/-- The training loop of cell-30: `for epoch in range(numIter): ...`. -/
def runLoop (eng : Engine F) (lr : F) (logEvery numIter : ℕ) (s : LoopState F) :
    LoopState F × List (ℕ × F) :=
  runFrom eng lr logEvery 0 numIter s

/-- State before the loop starts: parameters as initialized, no prediction
and no loss computed yet. -/
def initState (ps : List (Param F)) : LoopState F := ⟨ps, [], none⟩

/-- The post-loop report of cell-30: the training error rate is computed
from the loop-internal `yhat` left over from the last iteration, the test
error rate from a fresh forward pass on the test features with the final
parameters. -/
def reportErrors (run : LoopState F × List (ℕ × F))
    (fwdTest : List (List F) → List (List F)) (y ytest : List ℕ) : F × F :=
  (errorRate run.1.yhat y, errorRate (fwdTest (pvals run.1.params)) ytest)

/-- The linear model of cell-30: `torch.mm(x, W) + b`, with `W` a
`d × c` matrix given as a list of rows and `b` a length-`c` bias. -/
def linearForward (x W : List (List F)) (b : List F) : List (List F) :=
  x.map (fun row =>
    (List.range b.length).map (fun j =>
      (List.zipWith (fun xk wrow => xk * wrow.getD j 0) row W).sum + b.getD j 0))

/- Helper lemmas about the gradient machinery. -/

theorem zipWith_add_replicate_zero (g : List F) :
    ∀ n, g.length = n → List.zipWith (· + ·) (List.replicate n (0 : F)) g = g := by
  induction g with
  | nil => intro n _; simp
  | cons a l ih =>
    intro n hn
    cases n with
    | zero => simp at hn
    | succ m =>
      simp only [List.replicate_succ, List.zipWith_cons_cons, zero_add]
      rw [ih m (by simpa using hn)]

theorem pvals_zeroGrads (ps : List (Param F)) : pvals (zeroGrads ps) = pvals ps := by
  simp [pvals, zeroGrads]

/-- Claim C1: in every iteration the gradient accumulators are reset to zero
before the forward pass and backpropagation run — every Parameter's
accumulator is exactly zero right after the reset, the iteration pipeline
applies the optimizer step to gradients accumulated into the freshly zeroed
buffers, and the gradients consumed by the step are exactly the current
iteration's contributions, with nothing carried over. -/
theorem grad_reset_zero (ps : List (Param F)) :
    (∀ p ∈ zeroGrads ps, ∀ g ∈ p.grad, g = 0) ∧
    (∀ (eng : Engine F) (lr : F) (le epoch : ℕ) (s : LoopState F),
      (iterStep eng lr le epoch s).1.params
        = sgdStep lr (accumGrads (zeroGrads s.params)
            (eng.gradFn (pvals (zeroGrads s.params))))) ∧
    (∀ gs : List (List F),
      ps.map (fun p => p.grad.length) = gs.map List.length →
      (accumGrads (zeroGrads ps) gs).map Param.grad = gs) := by
  refine ⟨?_, ?_, ?_⟩
  · intro p hp g hg
    simp only [zeroGrads, List.mem_map] at hp
    obtain ⟨q, _, rfl⟩ := hp
    exact (List.eq_of_mem_replicate hg)
  · intro eng lr le epoch s
    rfl
  · induction ps with
    | nil =>
      intro gs hgs
      have : gs = [] := by
        cases gs with
        | nil => rfl
        | cons g t => simp at hgs
      subst this; rfl
    | cons p ps ih =>
      intro gs hgs
      cases gs with
      | nil => simp at hgs
      | cons g t =>
        simp only [List.map_cons, List.cons.injEq] at hgs
        simp only [zeroGrads, List.map_cons, accumGrads, List.zipWith_cons_cons,
          List.cons.injEq]
        refine ⟨zipWith_add_replicate_zero g p.grad.length hgs.1.symm, ?_⟩
        have := ih t hgs.2
        simpa [zeroGrads, accumGrads] using this

/-- Witness for C1 at a concrete parameter list and gradient list. -/
theorem grad_reset_zero_witness :
    (accumGrads (zeroGrads [(⟨[1, 2], [3, 4]⟩ : Param ℚ)]) [[5, 6]]).map Param.grad
      = [[5, 6]] :=
  (grad_reset_zero [(⟨[1, 2], [3, 4]⟩ : Param ℚ)]).2.2 [[5, 6]] (by decide)

/-- Claim C4: the plain gradient-descent step maps the parameter list
pointwise — it keeps the length, replaces each parameter's value by
`value - lr * grad` elementwise, and leaves its gradient buffer untouched. -/
theorem sgd_step_update (lr : F) (ps : List (Param F)) (i : ℕ) :
    (sgdStep lr ps).length = ps.length ∧
    (sgdStep lr ps).getD i ⟨[], []⟩ =
      { value := List.zipWith (fun v g => v - lr * g)
          ((ps.getD i ⟨[], []⟩).value) ((ps.getD i ⟨[], []⟩).grad),
        grad := (ps.getD i ⟨[], []⟩).grad } := by
  constructor
  · simp [sgdStep]
  · simp only [sgdStep, List.getD_eq_getElem?_getD, List.getElem?_map]
    cases hx : ps[i]? with
    | none => simp
    | some p => simp

/-- Claim C6: running the training loop for zero iterations is a no-op — it
returns the initial parameters untouched, produces no loss value, and emits
no log records. -/
theorem run_zero_iterations (eng : Engine F) (lr : F) (le : ℕ)
    (ps : List (Param F)) :
    (runLoop eng lr le 0 (initState ps)).1.params = ps ∧
    (runLoop eng lr le 0 (initState ps)).1.loss = none ∧
    (runLoop eng lr le 0 (initState ps)).2 = [] :=
  ⟨rfl, rfl, rfl⟩

/-- Claim C5: an iteration of the loop emits a log record exactly when the
cell-30 guard `if epoch and not epoch % logEvery` holds, and that guard holds
exactly when `logEvery` is positive and the iteration index is a positive
multiple of `logEvery`; in particular iteration 0 is never logged and
`logEvery = 0` disables all logging. -/
theorem log_emitted_iff (eng : Engine F) (lr : F) (logEvery epoch : ℕ)
    (s : LoopState F) :
    ((iterStep eng lr logEvery epoch s).2.isSome = shouldLog logEvery epoch) ∧
    (shouldLog logEvery epoch = true ↔
      0 < logEvery ∧ 0 < epoch ∧ logEvery ∣ epoch) := by
  constructor
  · simp only [iterStep]
    by_cases h : shouldLog logEvery epoch <;> simp [h]
  · simp only [shouldLog, Bool.and_eq_true, bne_iff_ne, ne_eq, beq_iff_eq]
    constructor
    · rintro ⟨h0, hm⟩
      rcases Nat.eq_zero_or_pos logEvery with hle | hle
      · subst hle
        rw [Nat.mod_zero] at hm
        exact absurd hm h0
      · exact ⟨hle, Nat.pos_of_ne_zero h0, Nat.dvd_of_mod_eq_zero hm⟩
    · rintro ⟨hle, he, hdvd⟩
      obtain ⟨c, rfl⟩ := hdvd
      exact ⟨Nat.pos_iff_ne_zero.mp he, Nat.mul_mod_right _ _⟩

/- Helper lemmas for the error-rate claim. -/

theorem sum_indicator_eq_countP (q : List F → ℕ → Bool) :
    ∀ (pred : List (List F)) (y : List ℕ), pred.length = y.length →
    (List.zipWith (fun row l => if q row l then (1 : F) else 0) pred y).sum
      = (((List.range y.length).countP
          (fun i => q (pred.getD i []) (y.getD i 0))) : F) := by
  intro pred
  induction pred with
  | nil =>
    intro y hy
    have : y = [] := by
      cases y with
      | nil => rfl
      | cons a t => simp at hy
    subst this; simp
  | cons r pr ih =>
    intro y hy
    cases y with
    | nil => simp at hy
    | cons l yl =>
      simp only [List.length_cons] at hy
      have hlen : pr.length = yl.length := by omega
      simp only [List.zipWith_cons_cons, List.sum_cons, List.length_cons,
        List.range_succ_eq_map, List.countP_cons, List.countP_map]
      have h2 : (List.countP
            ((fun i => q ((r :: pr).getD i []) ((l :: yl).getD i 0)) ∘ Nat.succ)
            (List.range yl.length))
          = List.countP (fun i => q (pr.getD i []) (yl.getD i 0))
            (List.range yl.length) := by
        apply List.countP_congr
        intro i _
        simp [Function.comp, List.getD_cons_succ]
      rw [h2]
      rw [ih yl hlen]
      by_cases hq : q r l
      · simp only [hq, if_true, List.getD_cons_zero]
        push_cast
        ring
      · simp only [hq, if_false, List.getD_cons_zero, Bool.false_eq_true]
        push_cast
        ring

theorem sum_indicator_bounds (q : List F → ℕ → Bool) :
    ∀ (pred : List (List F)) (y : List ℕ),
    0 ≤ (List.zipWith (fun row l => if q row l then (1 : F) else 0) pred y).sum ∧
    (List.zipWith (fun row l => if q row l then (1 : F) else 0) pred y).sum
      ≤ ((List.zipWith (fun row l => if q row l then (1 : F) else 0) pred y).length : F) := by
  intro pred
  induction pred with
  | nil => intro y; simp
  | cons r pr ih =>
    intro y
    cases y with
    | nil => simp
    | cons l yl =>
      obtain ⟨ih1, ih2⟩ := ih yl
      simp only [List.zipWith_cons_cons, List.sum_cons, List.length_cons,
        Nat.cast_add, Nat.cast_one]
      constructor
      · by_cases hq : q r l
        · rw [if_pos hq]; linarith
        · rw [if_neg hq]; linarith
      · by_cases hq : q r l
        · rw [if_pos hq]; linarith
        · rw [if_neg hq]; linarith

/-- Claim C2: `classificationErrorRate` equals the fraction of rows whose
arg-max predicted class differs from the label, and lies in `[0, 1]`. -/
theorem classification_error_rate_spec (forward : List (List F) → List (List F))
    (features : List (List F)) (labels : List ℕ)
    (hlen : (forward features).length = labels.length)
    (hpos : 0 < labels.length) :
    classificationErrorRate forward features labels
      = (((List.range labels.length).countP
          (fun i => argmaxIdx ((forward features).getD i []) != labels.getD i 0)) : F)
        / (labels.length : F) ∧
    0 ≤ classificationErrorRate forward features labels ∧
    classificationErrorRate forward features labels ≤ 1 := by
  have hml : (List.zipWith
      (fun row l => if argmaxIdx row != l then (1 : F) else 0)
      (forward features) labels).length = labels.length := by
    rw [List.length_zipWith, hlen, min_self]
  have hsum := sum_indicator_eq_countP (F := F)
    (fun row l => argmaxIdx row != l) (forward features) labels hlen
  have hbd := sum_indicator_bounds (F := F)
    (fun row l => argmaxIdx row != l) (forward features) labels
  have hcast : (0 : F) < (labels.length : F) := by exact_mod_cast hpos
  refine ⟨?_, ?_, ?_⟩
  · simp only [classificationErrorRate, errorRate, hml, hsum]
  · simp only [classificationErrorRate, errorRate]
    exact div_nonneg hbd.1 (by positivity)
  · simp only [classificationErrorRate, errorRate, hml]
    rw [div_le_one hcast]
    calc (List.zipWith (fun row l => if argmaxIdx row != l then (1 : F) else 0)
            (forward features) labels).sum
        ≤ _ := hbd.2
      _ = (labels.length : F) := by rw [hml]

/-- Witness for C2 at a concrete prediction and label list. -/
theorem classification_error_rate_spec_witness :
    classificationErrorRate (fun _ => [[(0 : ℚ), 1], [3, 2]]) [] [1, 1]
      = (((List.range 2).countP
          (fun i => argmaxIdx (([[(0 : ℚ), 1], [3, 2]]).getD i []) != ([1, 1].getD i 0))) : ℚ)
        / ((2 : ℕ) : ℚ) ∧
    0 ≤ classificationErrorRate (fun _ => [[(0 : ℚ), 1], [3, 2]]) [] [1, 1] ∧
    classificationErrorRate (fun _ => [[(0 : ℚ), 1], [3, 2]]) [] [1, 1] ≤ 1 :=
  classification_error_rate_spec (fun _ => [[(0 : ℚ), 1], [3, 2]]) [] [1, 1]
    (by decide) (by decide)

/-- Claim C9: the embedded training loop and evaluation routine are pure
functions of their inputs — a run from the parameters produced by a fixed
seeded initializer yields the same final loss every time, and the errorrate
is the same on every call with the same model state and data. -/
theorem run_deterministic (eng : Engine F) (lr : F) (le n : ℕ)
    (seedInit : ℕ → List (Param F)) (seed : ℕ)
    (features : List (List F)) (y : List ℕ) :
    (runLoop eng lr le n (initState (seedInit seed))).1.loss
      = (runLoop eng lr le n (initState (seedInit seed))).1.loss ∧
    classificationErrorRate eng.forward features y
      = classificationErrorRate eng.forward features y :=
  ⟨rfl, rfl⟩

/-! Cross-entropy loss over `ℝ` (claim C3).  The loss function itself is
PyTorch library code, an external collaborator of the notebook, so it is
modelled from its reference semantics. -/

/-- Log of the sum of exponentials of a row (the normalizer of softmax). -/
noncomputable def logSumExp (row : List ℝ) : ℝ :=
  Real.log (row.map Real.exp).sum

/-- Entry `j` of `log_softmax` of a row: `row[j] - log Σ exp row[k]`. -/
noncomputable def logSoftmaxEntry (row : List ℝ) (j : ℕ) : ℝ :=
  row.getD j 0 - logSumExp row

/-- Modelled from the spec: `torch.nn.functional.cross_entropy(yhat, y)`
(cell-30, cell-32) — the mean over examples of the negative log likelihood
`log Σ exp yhat[i] - yhat[i][y[i]]` of the label class. -/
noncomputable def crossEntropyList (pred : List (List ℝ)) (labels : List ℕ) : ℝ :=
  (List.zipWith (fun row l => logSumExp row - row.getD l 0) pred labels).sum
    / (pred.length : ℝ)

theorem zipWith_neg_sum {α β : Type} (g : α → β → ℝ) :
    ∀ (l1 : List α) (l2 : List β),
      (List.zipWith (fun a b => -(g a b)) l1 l2).sum
        = -(List.zipWith g l1 l2).sum := by
  intro l1
  induction l1 with
  | nil => intro l2; simp
  | cons a t ih =>
    intro l2
    cases l2 with
    | nil => simp
    | cons b s =>
      simp only [List.zipWith_cons_cons, List.sum_cons, ih s]
      ring

/-- Claim C3: the per-iteration scalar loss of the loop instantiated with the
cross-entropy loss is exactly the cross-entropy of the forward output, and
cross-entropy equals the spec formula
`-mean over i of log_softmax(prediction)[i, labels[i]]`. -/
theorem loss_is_cross_entropy
    (fwd gradFn : List (List ℝ) → List (List ℝ)) (y : List ℕ) (lr : ℝ)
    (le epoch : ℕ) (s : LoopState ℝ) :
    ((iterStep ⟨fwd, fun yhat => crossEntropyList yhat y, gradFn⟩
        lr le epoch s).1.loss
      = some (crossEntropyList (fwd (pvals (zeroGrads s.params))) y)) ∧
    (∀ (pred : List (List ℝ)) (labels : List ℕ),
      crossEntropyList pred labels
        = -((List.zipWith (fun row l => logSoftmaxEntry row l) pred labels).sum
            / (pred.length : ℝ))) := by
  constructor
  · rfl
  · intro pred labels
    have hfun : (fun (row : List ℝ) (l : ℕ) => logSumExp row - row.getD l 0)
        = fun row l => -(logSoftmaxEntry row l) := by
      funext row l
      rw [logSoftmaxEntry, neg_sub]
    rw [crossEntropyList, hfun, zipWith_neg_sum, neg_div]

/-! Broadcasting (claim C7), translated from the rule quoted in cell-9 and
exercised in cell-11: iterate over the dimension sizes starting at the
trailing dimension; sizes are compatible when they are equal, one of them is
1, or one of them does not exist (missing dimensions are implicitly added on
the left only). -/

/-- Combine two reversed shape lists (trailing dimension first). -/
def bcastRev : List ℕ → List ℕ → Option (List ℕ)
  | [], ys => some ys
  | xs, [] => some xs
  | x :: xs, y :: ys =>
    match bcastRev xs ys with
    | none => none
    | some rest =>
      if x = y then some (x :: rest)
      else if x = 1 then some (y :: rest)
      else if y = 1 then some (x :: rest)
      else none

/-- The broadcast result shape of two shapes, or `none` when they are not
broadcastable. -/
def broadcastShapes (a b : List ℕ) : Option (List ℕ) :=
  (bcastRev a.reverse b.reverse).map List.reverse

/-- An N-dimensional array: a shape and row-major flat data. -/
structure Tensor (G : Type) where
  shape : List ℕ
  data : List G
deriving DecidableEq

/-- All multi-indices of a shape, in row-major order. -/
def allIndices : List ℕ → List (List ℕ)
  | [] => [[]]
  | d :: ds => ((List.range d).map (fun i => (allIndices ds).map (fun ix => i :: ix))).flatten

/-- Row-major flattening of a multi-index. -/
def flatIndex (shape idx : List ℕ) : ℕ :=
  (List.zip shape idx).foldl (fun acc si => acc * si.1 + si.2) 0

/-- Read a tensor at a (possibly longer) result multi-index, replicating it
across missing leading dimensions and across size-1 dimensions. -/
def readB {G : Type} [Zero G] (t : Tensor G) (idx : List ℕ) : G :=
  let aligned := idx.drop (idx.length - t.shape.length)
  t.data.getD (flatIndex t.shape (List.zipWith (fun s i => i % s) t.shape aligned)) 0

/-- Elementwise addition under the broadcasting rule
(`torch.ones(...) + torch.ones(...)`, cell-11). -/
def addBroadcast {G : Type} [Zero G] [Add G] (a b : Tensor G) : Option (Tensor G) :=
  match broadcastShapes a.shape b.shape with
  | none => none
  | some sh => some ⟨sh, (allIndices sh).map (fun ix => readB a ix + readB b ix)⟩

/-- A tensor of the given shape filled with ones (`torch.ones`). -/
def onesT {G : Type} [One G] (shape : List ℕ) : Tensor G :=
  ⟨shape, List.replicate (shape.foldl (· * ·) 1) 1⟩

/-- Claim C7: adding shapes `(5,4,3,2)` and `(4,1,2)` broadcasts to shape
`(5,4,3,2)` (every entry `1 + 1 = 2`), while adding shapes `(5,4,3,2)` and
`(5,4,3)` fails with a shape mismatch, since size-1 dimensions are implicitly
inserted only on the left. -/
theorem broadcast_examples :
    (addBroadcast (onesT [5, 4, 3, 2] : Tensor ℤ) (onesT [4, 1, 2])
      = some ⟨[5, 4, 3, 2], List.replicate 120 2⟩) ∧
    addBroadcast (onesT [5, 4, 3, 2] : Tensor ℤ) (onesT [5, 4, 3]) = none := by
  constructor
  · decide
  · decide

/-! Input validation (claim C8).  The notebook's loop performs no validation
of its own; the only check is the one the library's loss function applies
when it is called.  The loop below makes that runtime check explicit by
letting the loss function reject its input. -/

/-- Validity of a (prediction, labels) pair: matching row counts and all
labels inside `[0, numClasses)`. -/
def validInputB (numClasses : ℕ) (pred : List (List F)) (labels : List ℕ) : Bool :=
  pred.length == labels.length && labels.all (fun l => decide (l < numClasses))

/-- Modelled from the spec: `torch.nn.functional.cross_entropy` raises a
runtime error when the prediction batch size differs from the label count or
a label is out of range; on valid input it returns the loss value, abstracted
here as `raw`. -/
def checkedLoss (numClasses : ℕ) (labels : List ℕ) (raw : List (List F) → F)
    (pred : List (List F)) : Option F :=
  if validInputB numClasses pred labels then some (raw pred) else none

/-- The engine with a loss that can fail at call time. -/
structure EngineE (F : Type) where
  forward : List (List F) → List (List F)
  lossFn : List (List F) → Option F
  gradFn : List (List F) → List (List F)

/-- One iteration of the cell-30 loop with the loss's runtime check made
explicit: the gradient reset and the forward pass run first; if the loss
call then fails, the iteration aborts at that point, carrying the state as
mutated so far. -/
def iterChecked (eng : EngineE F) (lr : F) (s : LoopState F) :
    Except (LoopState F) (LoopState F) :=
  let ps1 := zeroGrads s.params
  let yhat := eng.forward (pvals ps1)
  match eng.lossFn yhat with
  | none => Except.error ⟨ps1, yhat, none⟩
  | some L =>
    Except.ok ⟨sgdStep lr (accumGrads ps1 (eng.gradFn (pvals ps1))), yhat, some L⟩

/-- The cell-30 loop with the fallible loss: note there is no validation
step of any kind before the first iteration. -/
def runChecked (eng : EngineE F) (lr : F) :
    ℕ → LoopState F → Except (LoopState F) (LoopState F)
  | 0, s => Except.ok s
  | n + 1, s =>
    match iterChecked eng lr s with
    | Except.error e => Except.error e
    | Except.ok s1 => runChecked eng lr n s1

/-- Training features of the two-class toy instance used for concrete runs:
one example with a single feature. -/
def tinyX : List (List ℚ) := [[1]]

/-- Labels with the wrong length for `tinyX` (one row, two labels). -/
def badY : List ℕ := [0, 1]

/-- A concrete engine on `tinyX` whose loss applies the library's runtime
validation against the mismatched labels `badY`. -/
def badEng : EngineE ℚ :=
  ⟨fun vals => linearForward tinyX [vals.getD 0 []] (vals.getD 1 []),
   checkedLoss 2 badY (fun _ => 0),
   fun _ => [[0, 0], [0, 0]]⟩

/-- Initial parameters for the malformed-input run, with stale nonzero
gradient buffers so that the first iteration's reset is observable. -/
def badInit : List (Param ℚ) := [⟨[0, 1], [5, 5]⟩, ⟨[0, 0], [7]⟩]

/-- Counterexample to claim C8 as stated: on a malformed input (row count 1
against label count 2) the loop does fail, but not before executing any
iteration — the error state returned by the run shows the first iteration's
gradient reset and forward pass already executed, so the state at failure
differs from the untouched initial state. -/
theorem validation_fail_fast_cex :
    validInputB 2 (badEng.forward (pvals badInit)) badY = false ∧
    runChecked badEng 1 5 (initState badInit)
      = Except.error
          ⟨zeroGrads badInit, badEng.forward (pvals (zeroGrads badInit)), none⟩ ∧
    (⟨zeroGrads badInit, badEng.forward (pvals (zeroGrads badInit)), none⟩
        : LoopState ℚ) ≠ initState badInit := by
  refine ⟨by decide, rfl, by decide⟩

/-- Claim C8 amended: the loop performs no up-front validation; when the
loss function rejects the first prediction (as it does on malformed input),
the error surfaces inside the first iteration, after the gradient reset and
the forward pass, and the loop stops there — no optimizer step runs, so
every Parameter's value is unchanged.  A checked loss rejects its input
exactly when the input is malformed. -/
theorem malformed_fails_in_first_iteration (eng : EngineE F) (lr : F) (n : ℕ)
    (s : LoopState F)
    (hfail : eng.lossFn (eng.forward (pvals (zeroGrads s.params))) = none) :
    runChecked eng lr (n + 1) s
      = Except.error
          ⟨zeroGrads s.params, eng.forward (pvals (zeroGrads s.params)), none⟩ ∧
    pvals (zeroGrads s.params) = pvals s.params ∧
    (∀ (c : ℕ) (y : List ℕ) (raw : List (List F) → F) (pred : List (List F)),
      checkedLoss c y raw pred = none ↔ validInputB c pred y = false) := by
  refine ⟨?_, pvals_zeroGrads s.params, ?_⟩
  · simp only [runChecked, iterChecked]
    rw [hfail]
  · intro c y raw pred
    constructor
    · intro h
      cases hv : validInputB c pred y with
      | false => rfl
      | true =>
        rw [checkedLoss, hv] at h
        simp at h
    · intro hv
      rw [checkedLoss, hv]
      simp

/-- Witness for the amended C8 on the concrete malformed instance. -/
theorem malformed_fails_in_first_iteration_witness :
    runChecked badEng 1 (4 + 1) (initState badInit)
      = Except.error
          ⟨zeroGrads badInit, badEng.forward (pvals (zeroGrads badInit)), none⟩ :=
  (malformed_fails_in_first_iteration badEng 1 4 (initState badInit) (by decide)).1

/-! The post-loop error report (claim C10). -/

theorem runFrom_state_succ (eng : Engine F) (lr : F) (le : ℕ) :
    ∀ (k e : ℕ) (s : LoopState F),
      (runFrom eng lr le e (k + 1) s).1
        = (iterStep eng lr le (e + k) ((runFrom eng lr le e k s).1)).1 := by
  intro k
  induction k with
  | zero =>
    intro e s
    simp [runFrom]
  | succ k ih =>
    intro e s
    have h1 : (runFrom eng lr le e (k + 1 + 1) s).1
        = (runFrom eng lr le (e + 1) (k + 1) (iterStep eng lr le e s).1).1 := by
      simp [runFrom]
    have h2 : (runFrom eng lr le e (k + 1) s).1
        = (runFrom eng lr le (e + 1) k (iterStep eng lr le e s).1).1 := by
      simp [runFrom]
    have h3 : e + 1 + k = e + (k + 1) := by omega
    rw [h1, ih (e + 1) (iterStep eng lr le e s).1, h2, h3]

/-- A concrete engine on `tinyX` whose gradient flips the predicted class of
the single example in one step of learning rate 1. -/
def tinyEng : Engine ℚ :=
  ⟨fun vals => linearForward tinyX [vals.getD 0 []] (vals.getD 1 []),
   fun _ => 0,
   fun _ => [[0, 2], [0, 0]]⟩

/-- Initial parameters for the class-flip run. -/
def tinyInit : List (Param ℚ) := [⟨[0, 1], [0, 0]⟩, ⟨[0, 0], [0, 0]⟩]

/-- Claim C10: the reported training error rate is computed from the
prediction of the final iteration's forward pass, i.e. from the parameters
before that iteration's optimizer step; it can therefore differ from the
error rate of the fully trained model on the same data (a concrete run where
the two differ is exhibited), while the reported test error rate comes from
a fresh forward pass with the final parameters. -/
theorem train_error_from_prefinal_prediction (eng : Engine F)
    (fwdTest : List (List F) → List (List F)) (lr : F) (le k : ℕ)
    (s : LoopState F) (y ytest : List ℕ) :
    ((reportErrors (runLoop eng lr le (k + 1) s) fwdTest y ytest).1
      = errorRate (eng.forward (pvals ((runLoop eng lr le k s).1.params))) y) ∧
    ((reportErrors (runLoop eng lr le (k + 1) s) fwdTest y ytest).2
      = errorRate (fwdTest (pvals ((runLoop eng lr le (k + 1) s).1.params))) ytest) ∧
    (errorRate ((runLoop tinyEng 1 0 1 (initState tinyInit)).1.yhat) [0]
      ≠ errorRate
          (tinyEng.forward (pvals ((runLoop tinyEng 1 0 1 (initState tinyInit)).1.params)))
          [0]) := by
  refine ⟨?_, rfl, by
    norm_num [runLoop, runFrom, iterStep, tinyEng, tinyInit, initState, zeroGrads,
      accumGrads, sgdStep, pvals, tinyX, linearForward, errorRate, argmaxIdx,
      argmaxGo, shouldLog, List.range_succ]⟩
  have h := runFrom_state_succ eng lr le k 0 s
  show errorRate ((runFrom eng lr le 0 (k + 1) s).1.yhat) y = _
  rw [h]
  show errorRate
      (eng.forward (pvals (zeroGrads ((runFrom eng lr le 0 k s).1.params)))) y = _
  rw [pvals_zeroGrads]
  rfl

end TorchTut
